import Mathlib

/-!
Shallow embedding of `src/main.py` (an Indian Poker simulation) together
with theorems settling the specification claims about it.

Conventions of the embedding:
* Python `str` card values stay `String`; Python's lexicographic string
  comparison is re-implemented on code points (`pyStrLt`).
* Python floats (`honesty`, the weighted average) are modelled as `ℚ`.
* Python exceptions are modelled by `Except PyError`; the `PyError`
  enumeration also carries the error names the design document mentions
  (`EmptyDeckError`, `InsufficientPlayersError`) so that "fails with this
  specific error" is statable, even though the code never raises them.
* Randomness is threaded explicitly: `random.random()` becomes a rational
  parameter `r` with `0 ≤ r < 1`, `random.choice(["Call","Fold"])` becomes
  a `Decision` parameter, `random.shuffle` becomes an arbitrary
  length-preserving function supplied by the caller.
-/

namespace IndianPoker

/-- Python exceptions relevant to this program.  `IndexError`,
`ValueError` and `ZeroDivisionError` are the built-ins the code can
actually raise; `EmptyDeckError` and `InsufficientPlayersError` are the
custom errors named by the design document (they do not exist in the
code). -/
inductive PyError where
  | IndexError
  | ValueError
  | ZeroDivisionError
  | EmptyDeckError
  | InsufficientPlayersError
  deriving DecidableEq, Repr

instance {ε α : Type} [DecidableEq ε] [DecidableEq α] : DecidableEq (Except ε α) :=
  fun a b =>
    match a, b with
    | .error e, .error f =>
      if h : e = f then .isTrue (by rw [h]) else .isFalse (by simp [h])
    | .error _, .ok _ => .isFalse (by simp)
    | .ok _, .error _ => .isFalse (by simp)
    | .ok x, .ok y =>
      if h : x = y then .isTrue (by rw [h]) else .isFalse (by simp [h])

/-- `CardValue = str` in the source. -/
abbrev CardValue := String

/-- `card_order` from `src/main.py` line 13: the 13-symbol alphabet in
rank order. -/
def card_order : List CardValue :=
  ["2", "3", "4", "5", "6", "7", "8", "9", "10", "J", "Q", "K", "A"]

/-- `WINNING_SCORE = 5` (line 16). -/
def WINNING_SCORE : Int := 5

/-- `LOSE_FOLD_SCORE = -1` (line 17). -/
def LOSE_FOLD_SCORE : Int := -1

/-- `LOSE_CALL_SCORE = -2` (line 18). -/
def LOSE_CALL_SCORE : Int := -2

/-- Python's `<` on lists of characters, compared by code point. -/
def pyStrLtAux : List Char → List Char → Bool
  | [], [] => false
  | [], _ :: _ => true
  | _ :: _, [] => false
  | a :: as, b :: bs =>
    if a.toNat < b.toNat then true
    else if b.toNat < a.toNat then false
    else pyStrLtAux as bs

/-- Python's `<` on `str`: lexicographic comparison by code point. -/
def pyStrLt (a b : CardValue) : Bool :=
  pyStrLtAux a.data b.data

/-- One step of Python's built-in `max`: keep the current value unless the
next one is strictly greater. -/
def pyStrMax2 (a b : CardValue) : CardValue :=
  if pyStrLt a b then b else a

/-- Python's built-in `max(iterable)` on strings: raises `ValueError` on an
empty iterable, otherwise folds `pyStrMax2` from the first element.  This is
the max used by `tell_opponent_max` (line 46), `make_decision` (line 54) and
`play_round`'s caller resolution (line 131). -/
def pyMax : List CardValue → Except PyError CardValue
  | [] => .error .ValueError
  | x :: xs => .ok (xs.foldl pyStrMax2 x)

/-- The index of a card value in `card_order`; the rank order the
specification prescribes ("totally ordered by rank index"). -/
def rankIndex (v : CardValue) : Nat :=
  card_order.indexOf v

/-- Modelled from the spec: the maximum by rank index ("'10' ranks above
'9'"), the comparison the specification's Rank section prescribes.  The
source has no such function — it is stated here only to compare the
source's string `max` against the specified order. -/
def specMax : List CardValue → Option CardValue
  | [] => none
  | x :: xs => some (xs.foldl (fun a b => if rankIndex a < rankIndex b then b else a) x)

/-- `PlayerType` (lines 26–28). -/
inductive PlayerType where
  | Rational
  | Random
  deriving DecidableEq, Repr

/-- A decision string from `make_decision`: `"Call"` or `"Fold"`. -/
inductive Decision where
  | Call
  | Fold
  deriving DecidableEq, Repr

/-- `Player` (lines 31–36): honesty, held card, policy type, cumulative
score. -/
structure Player where
  honesty : ℚ
  card : CardValue
  player_type : PlayerType
  score : Int
  deriving DecidableEq, Repr

/-- `Player.__init__` (lines 32–36): default card `"2"`, even-indexed
players Rational. -/
def Player.create (honesty : ℚ) (isRational : Bool) : Player :=
  { honesty := honesty
    card := "2"
    player_type := if isRational then .Rational else .Random
    score := 0 }

/-- `Player.tell_truth` (lines 38–42), with the `random.random()` draw `r`
passed explicitly: truth is told when `r < honesty`. -/
def tell_truth (r honesty : ℚ) (maximum : Bool) : Bool :=
  if r < honesty then maximum else !maximum

/-- The ground-truth computation inside `Player.tell_opponent_max`
(lines 46–48): the listener's card equals the string `max` over
`opponents_list`'s cards. -/
def is_truely_max (opponent_card : CardValue) (opponents_cards : List CardValue) :
    Except PyError Bool :=
  (pyMax opponents_cards).map (fun m => opponent_card == m)

/-- `Player.tell_opponent_max` (lines 44–49): compute the ground truth and
pass it through `tell_truth` with the speaker's honesty. -/
def tell_opponent_max (r honesty : ℚ) (opponent_card : CardValue)
    (opponents_cards : List CardValue) : Except PyError Bool :=
  (is_truely_max opponent_card opponents_cards).map (tell_truth r honesty)

/-- The ground-truth bit produced in `play_round`'s signalling loop
(lines 112–117) for a speaker/listener pair, players identified by index:
`opponents_list = [p for p in self.players if p != player]` removes the
SPEAKER, so the comparison set is all players except the speaker. -/
def signalGroundTruth (cards : List CardValue) (speaker listener : Nat) :
    Except PyError Bool :=
  match cards.get? listener with
  | none => .error .IndexError
  | some c => is_truely_max c (cards.eraseIdx speaker)

/-- Modelled from the spec: the ground truth §4.2/§4.4 prescribe — the
listener's card equals the (rank-index) maximum over all players EXCEPT THE
LISTENER. Stated only to compare against `signalGroundTruth`. -/
def specSignalGroundTruth (cards : List CardValue) (_speaker listener : Nat) :
    Except PyError Bool :=
  match cards.get? listener, specMax (cards.eraseIdx listener) with
  | none, _ => .error .IndexError
  | some _, none => .error .ValueError
  | some c, some m => .ok (c == m)

/-- `Player.calc_weighed_ave_possibility` (lines 74–81): sum of
`is_max * opponent.honesty` over the received claims, divided by their
number; `ZeroDivisionError` when the map is empty. -/
def calc_weighed_ave_possibility (info : List (ℚ × Bool)) : Except PyError ℚ :=
  let s : ℚ := info.foldl (fun acc ob => acc + (if ob.2 then ob.1 else 0)) 0
  if info.length = 0 then .error .ZeroDivisionError
  else .ok (s / info.length)

/-- `Player.make_decision` (lines 51–72): first computes the visible max
over the opponents' cards (raising `ValueError` when there are none), then
branches on the policy type; the Random branch returns the uniform choice
`randChoice`, the Rational branch thresholds the expected value of
calling. -/
def make_decision (pt : PlayerType) (opponents : List CardValue)
    (info : List (ℚ × Bool)) (randChoice : Decision) : Except PyError Decision :=
  match pyMax opponents with
  | .error e => .error e
  | .ok _ =>
    match pt with
    | .Random => .ok randChoice
    | .Rational =>
      (calc_weighed_ave_possibility info).map (fun p =>
        if p * (WINNING_SCORE : ℚ) + (1 - p) * (LOSE_CALL_SCORE : ℚ) > 0
        then .Call else .Fold)

/-- `ENOUGH_CARD_SET = 10**3` (line 86). -/
def ENOUGH_CARD_SET : Nat := 10 ^ 3

/-- `Deck.__init__` (lines 85–87): `card_order * ENOUGH_CARD_SET`, the
13-rank alphabet repeated 1000 times. -/
def deckInit : List CardValue :=
  (List.replicate ENOUGH_CARD_SET card_order).flatten

/-- `Deck.draw` (lines 92–93): `self.cards.pop()` removes and returns the
LAST card; on an empty list Python raises `IndexError`. -/
def Deck.draw (cards : List CardValue) : Except PyError (CardValue × List CardValue) :=
  match cards.getLast? with
  | none => .error .IndexError
  | some c => .ok (c, cards.dropLast)

/-- `n` consecutive draws from a deck, as done by the dealing loop in
`play_round` (lines 106–107): one draw per player. -/
def drawN : Nat → List CardValue → Except PyError (List CardValue)
  | 0, cards => .ok cards
  | n + 1, cards =>
    match Deck.draw cards with
    | .error e => .error e
    | .ok (_, rest) => drawN n rest

/-- The deck evolution over a whole session (`play_game`, lines 142–144):
each round shuffles (`sh r` applied to the deck) and then draws once per
player; the deck is never re-provisioned between rounds. -/
def sessionDraws (sh : Nat → List CardValue → List CardValue)
    (num_players : Nat) : Nat → List CardValue → Except PyError (List CardValue)
  | 0, deck => .ok deck
  | r + 1, deck =>
    match drawN num_players (sh r deck) with
    | .error e => .error e
    | .ok rest => sessionDraws sh num_players r rest

/-- `IndianPokerGame` state (lines 96–102). -/
structure IndianPokerGame where
  players : List Player
  deck : List CardValue
  deriving DecidableEq, Repr

/-- `IndianPokerGame.__init__` (lines 97–102), honesty draws passed
explicitly: builds the player list (even-indexed Rational) and a fresh
deck.  There is no player-count check anywhere in it, so it never
raises. -/
def mkGame (num_players : Nat) (hon : Nat → ℚ) : Except PyError IndianPokerGame :=
  .ok { players := (List.range num_players).map (fun i => Player.create (hon i) (i % 2 == 0))
        deck := deckInit }

/-- The Python dynamic value held by `max_value` in `play_round`
(lines 129–131): the int `0` when nobody called, otherwise the string max
of the callers' cards. -/
inductive PyVal where
  | int (n : Int)
  | str (s : CardValue)
  deriving DecidableEq, Repr

/-- Python `==` between a card value (a `str`) and `max_value`
(line 137): comparing a `str` with an `int` is simply `False`. -/
def pyEqStr (card : CardValue) (v : PyVal) : Bool :=
  match v with
  | .int _ => false
  | .str s => card == s

/-- The cards of the players who said `"Call"` (line 128), players and
decisions aligned by position. -/
def calledCards (cards : List CardValue) (decisions : List Decision) : List CardValue :=
  ((cards.zip decisions).filter (fun cd => cd.2 == .Call)).map (fun cd => cd.1)

/-- `max_value` as computed on lines 129–131: `0` when no one called,
the string max of the callers' cards otherwise. -/
def roundMaxValue (called : List CardValue) : Except PyError PyVal :=
  match called with
  | [] => .ok (.int 0)
  | _ :: _ => (pyMax called).map .str

/-- One player's score change in the resolution loop (lines 133–140). -/
def playerDelta (card : CardValue) (decision : Decision) (mv : PyVal) : Int :=
  match decision with
  | .Fold => LOSE_FOLD_SCORE
  | .Call => if pyEqStr card mv then WINNING_SCORE else LOSE_CALL_SCORE

/-- The score-resolution step of `play_round` (lines 127–140): compute
`max_value` over the callers and add each player's delta to their
cumulative score. -/
def resolveRound (cards : List CardValue) (decisions : List Decision)
    (scores : List Int) : Except PyError (List Int) :=
  (roundMaxValue (calledCards cards decisions)).map (fun mv =>
    List.zipWith (fun cd s => s + playerDelta cd.1 cd.2 mv) (cards.zip decisions) scores)

end IndianPoker

namespace IndianPoker

/-! ## Shared helper lemmas -/

lemma pyMax_cons (x : CardValue) (xs : List CardValue) :
    pyMax (x :: xs) = .ok (xs.foldl pyStrMax2 x) := rfl

lemma foldl_add_eq_sum {α : Type} (f : α → ℚ) (l : List α) : ∀ a : ℚ,
    l.foldl (fun acc x => acc + f x) a = a + (l.map f).sum := by
  induction l with
  | nil => intro a; simp
  | cons x xs ih => intro a; simp [ih (a + f x), add_assoc]

/-! ## Claims -/

/-- C1: the spec orders ranks by index in `card_order` ('10' above '9', 'A'
above 'K', 'Q' and 'J'), but every `max` in the code compares card values as
Python strings, lexicographically: on held cards '10' and '9' the code's max
is '9', and on 'A','K','Q','J' it is 'Q', even though the rank indices order
them the other way. The code violates the claimed ordering. -/
theorem string_max_defies_rank_order :
    pyMax ["10", "9"] = .ok "9" ∧ specMax ["10", "9"] = some "10" ∧
    rankIndex "9" < rankIndex "10" ∧
    pyMax ["A", "K", "Q", "J"] = .ok "Q" ∧ specMax ["A", "K", "Q", "J"] = some "A" ∧
    rankIndex "Q" < rankIndex "K" ∧ rankIndex "K" < rankIndex "A" := by
  refine ⟨by decide, by decide, by decide, by decide, by decide, by decide, by decide⟩

/-- C2: with three players holding cards ['2','3','2'], speaker 0 and
listener 1, `play_round`'s signalling computes the ground truth over
`opponents_list = players except the SPEAKER` (which contains the listener),
yielding `true`, while the claimed rule "all players except the listener"
yields `false`; a fully honest speaker (honesty 1) therefore passes `true`
to `tell_truth` and sends it, contradicting the claim. -/
theorem signal_ground_truth_uses_wrong_comparison_set :
    signalGroundTruth ["2", "3", "2"] 0 1 = .ok true ∧
    specSignalGroundTruth ["2", "3", "2"] 0 1 = .ok false ∧
    tell_opponent_max 0 1 "3" ((["2", "3", "2"] : List CardValue).eraseIdx 0) = .ok true := by
  refine ⟨by decide, by decide, by decide⟩

/-- C5 counterexample: `Deck.draw` on the empty deck fails with the generic
Python `IndexError` from `list.pop`, not with the specific `EmptyDeckError`
the claim names. -/
theorem draw_empty_no_EmptyDeckError :
    Deck.draw ([] : List CardValue) = .error .IndexError ∧
    Deck.draw ([] : List CardValue) ≠ .error .EmptyDeckError := by
  refine ⟨rfl, by decide⟩

/-- C5 amended: `Deck.draw` removes and returns the last card when the deck
is non-empty, and fails — with the generic `IndexError`, not a dedicated
`EmptyDeckError` — exactly when no cards remain. -/
theorem draw_spec (cards : List CardValue) :
    (cards = [] → Deck.draw cards = .error .IndexError) ∧
    (∀ c rest, cards = rest ++ [c] → Deck.draw cards = .ok (c, rest)) ∧
    (∀ e, Deck.draw cards = .error e → e = .IndexError ∧ cards = []) := by
  refine ⟨?_, ?_, ?_⟩
  · rintro rfl; rfl
  · rintro c rest rfl
    simp [Deck.draw, List.getLast?_concat]
  · intro e he
    rcases List.eq_nil_or_concat cards with rfl | ⟨rest, c, rfl⟩
    · exact ⟨by simpa [Deck.draw] using he.symm, rfl⟩
    · simp [Deck.draw, List.getLast?_concat, List.concat_eq_append] at he

/-- C5 witness: instances of `draw_spec` — drawing from the empty deck
yields `IndexError`, drawing from `["2","3"]` removes and returns `"3"`. -/
theorem draw_spec_witness :
    Deck.draw ([] : List CardValue) = .error .IndexError ∧
    Deck.draw ["2", "3"] = .ok ("3", ["2"]) :=
  ⟨(draw_spec []).1 rfl, (draw_spec ["2", "3"]).2.1 "3" ["2"] rfl⟩

/-- C6 counterexample: constructing the game with a single player succeeds —
`IndianPokerGame.__init__` contains no player-count check — so it does not
fail with `InsufficientPlayersError` as claimed. -/
theorem mkGame_one_player_succeeds :
    (mkGame 1 (fun _ => (0 : ℚ))).isOk = true ∧
    mkGame 1 (fun _ => (0 : ℚ)) ≠ .error .InsufficientPlayersError := by
  refine ⟨rfl, ?_⟩
  simp [mkGame]

/-- C6 amended: construction never fails for any number of players (no
`InsufficientPlayersError` exists in the code); with fewer than 2 players
the failure surfaces only later, at decision time, where `make_decision`
raises `ValueError` computing `max` over an empty opponents list. -/
theorem mkGame_total_decision_fails_later :
    (∀ (n : Nat) (hon : Nat → ℚ), (mkGame n hon).isOk = true) ∧
    (∀ (pt : PlayerType) (info : List (ℚ × Bool)) (rc : Decision),
      make_decision pt [] info rc = .error .ValueError) := by
  refine ⟨fun n hon => rfl, fun pt info rc => rfl⟩

/-- C8: for any pseudo-random draw `r` in `[0,1)`, `tell_truth` with
honesty 1 returns the actual truth value and with honesty 0 returns its
negation. -/
theorem tell_truth_extremes (r : ℚ) (m : Bool) (h0 : 0 ≤ r) (h1 : r < 1) :
    tell_truth r 1 m = m ∧ tell_truth r 0 m = !m := by
  constructor
  · unfold tell_truth
    rw [if_pos h1]
  · unfold tell_truth
    rw [if_neg (by linarith : ¬r < 0)]

/-- C8 witness: `tell_truth_extremes` at the concrete draw `r = 1/2`. -/
theorem tell_truth_extremes_witness :
    ((0 : ℚ) ≤ 1 / 2 ∧ (1 : ℚ) / 2 < 1) ∧
    tell_truth (1 / 2) 1 true = true ∧ tell_truth (1 / 2) 0 true = !true :=
  ⟨⟨by norm_num, by norm_num⟩, tell_truth_extremes (1 / 2) true (by norm_num) (by norm_num)⟩

/-- C10: `make_decision` computes the visible max over the opponents' cards
before branching on the policy type, so with an empty opponents list it
fails with `ValueError` for both the Random and the Rational variant, and
any successful decision requires a non-empty opponents list. -/
theorem decision_requires_opponents (pt : PlayerType) (info : List (ℚ × Bool))
    (rc : Decision) :
    make_decision pt [] info rc = .error .ValueError ∧
    (∀ (opps : List CardValue) (d : Decision),
      make_decision pt opps info rc = .ok d → opps ≠ []) := by
  constructor
  · rfl
  · intro opps d h hnil
    subst hnil
    simp [make_decision, pyMax] at h

/-- C10 witness: with no opponents the Random player's decision fails; with
one opponent it succeeds, and the opponents list is indeed non-empty. -/
theorem decision_requires_opponents_witness :
    make_decision .Random [] [] .Call = .error .ValueError ∧
    (["2"] : List CardValue) ≠ [] :=
  ⟨(decision_requires_opponents .Random [] .Call).1,
   (decision_requires_opponents .Random [] .Call).2 ["2"] .Call rfl⟩

/-- C3: with at least one visible opponent and a non-empty claim map, the
Rational decision matches the reference definition: `p` is the honesty-
weighted average of the received 0/1 claims, and the player Calls exactly
when `p·WINNING_SCORE + (1-p)·LOSE_CALL_SCORE > 0`, i.e. when `p > 2/7`
(so Fold at exactly `p = 2/7`). -/
theorem rational_decision_threshold (opps : List CardValue) (info : List (ℚ × Bool))
    (rc : Decision) (ho : opps ≠ []) (hi : info ≠ []) :
    ∃ p : ℚ,
      calc_weighed_ave_possibility info = .ok p ∧
      p = (info.map (fun ob => if ob.2 then ob.1 else 0)).sum / info.length ∧
      make_decision .Rational opps info rc
        = .ok (if 2 / 7 < p then .Call else .Fold) := by
  have hlen : info.length ≠ 0 := fun h => hi (List.length_eq_zero.mp h)
  refine ⟨(info.map (fun ob => if ob.2 then ob.1 else 0)).sum / info.length, ?_, rfl, ?_⟩
  · unfold calc_weighed_ave_possibility
    rw [if_neg hlen, foldl_add_eq_sum (fun ob => if ob.2 then ob.1 else 0) info 0, zero_add]
  · obtain ⟨x, xs, rfl⟩ := List.exists_cons_of_ne_nil ho
    have key : ∀ q : ℚ,
        (q * (WINNING_SCORE : ℚ) + (1 - q) * (LOSE_CALL_SCORE : ℚ) > 0) ↔ (2 / 7 < q) := by
      intro q
      rw [show ((WINNING_SCORE : ℚ)) = 5 by norm_num [WINNING_SCORE],
        show ((LOSE_CALL_SCORE : ℚ)) = -2 by norm_num [LOSE_CALL_SCORE]]
      constructor <;> intro h <;> linarith
    simp only [make_decision, pyMax_cons, calc_weighed_ave_possibility, if_neg hlen,
      foldl_add_eq_sum (fun ob => if ob.2 then ob.1 else 0) info 0, zero_add, Except.map,
      key]

/-- C3 witness: one opponent with honesty exactly 2/7 claiming "you are the
max" yields `p = 2/7` and the decision Fold. -/
theorem rational_decision_threshold_witness :
    (["2"] : List CardValue) ≠ [] ∧ ([((2 : ℚ) / 7, true)] : List (ℚ × Bool)) ≠ [] ∧
    ∃ p : ℚ,
      calc_weighed_ave_possibility [((2 : ℚ) / 7, true)] = .ok p ∧
      p = (([((2 : ℚ) / 7, true)] : List (ℚ × Bool)).map
            (fun ob => if ob.2 then ob.1 else 0)).sum /
          ([((2 : ℚ) / 7, true)] : List (ℚ × Bool)).length ∧
      make_decision .Rational ["2"] [((2 : ℚ) / 7, true)] Decision.Call
        = .ok (if 2 / 7 < p then .Call else .Fold) := by
  refine ⟨by simp, by simp, rational_decision_threshold ["2"] [((2 : ℚ) / 7, true)] Decision.Call
    (by simp) (by simp)⟩

lemma calledCards_nil_of_all_fold (cards : List CardValue) (decisions : List Decision)
    (h : ∀ d ∈ decisions, d = .Fold) : calledCards cards decisions = [] := by
  have hfil : ((cards.zip decisions).filter (fun cd => cd.2 == .Call)) = [] := by
    apply List.filter_eq_nil_iff.mpr
    rintro ⟨c, d⟩ hcd
    have hd : d = .Fold := h d (List.of_mem_zip hcd).2
    subst hd
    simp
  unfold calledCards
  rw [hfil]
  rfl

lemma zipWith_all_fold (mv : PyVal) :
    ∀ (cards : List CardValue) (decisions : List Decision) (scores : List Int),
    decisions.length = cards.length → scores.length = cards.length →
    (∀ d ∈ decisions, d = .Fold) →
    List.zipWith (fun cd s => s + playerDelta cd.1 cd.2 mv) (cards.zip decisions) scores
      = scores.map (fun s => s + LOSE_FOLD_SCORE) := by
  intro cards
  induction cards with
  | nil =>
    intro decisions scores h1 h2 _
    rw [List.length_eq_zero.mp h1, List.length_eq_zero.mp h2]
    rfl
  | cons c cs ih =>
    intro decisions scores h1 h2 hf
    cases decisions with
    | nil => simp at h1
    | cons d ds =>
      cases scores with
      | nil => simp at h2
      | cons s ss =>
        have hd : d = .Fold := hf d (List.mem_cons_self d ds)
        subst hd
        simp only [List.zip_cons_cons, List.zipWith_cons_cons, List.map_cons]
        rw [ih ds ss (by simpa using h1) (by simpa using h2)
          (fun x hx => hf x (List.mem_cons_of_mem _ hx))]
        rfl

/-- C7: when every player Folds, the round's caller set is empty, the score
resolution completes without any error (no winner is computed: `max_value`
stays the int 0), and every player's score changes by exactly
`LOSE_FOLD_SCORE = -1`. -/
theorem all_fold_round (cards : List CardValue) (decisions : List Decision)
    (scores : List Int) (h1 : decisions.length = cards.length)
    (h2 : scores.length = cards.length) (hf : ∀ d ∈ decisions, d = .Fold) :
    calledCards cards decisions = [] ∧
    roundMaxValue (calledCards cards decisions) = .ok (.int 0) ∧
    resolveRound cards decisions scores
      = .ok (scores.map (fun s => s + LOSE_FOLD_SCORE)) := by
  have hc := calledCards_nil_of_all_fold cards decisions hf
  refine ⟨hc, by rw [hc]; rfl, ?_⟩
  unfold resolveRound
  rw [hc]
  simp only [roundMaxValue, Except.map]
  rw [zipWith_all_fold (.int 0) cards decisions scores h1 h2 hf]

/-- C7 witness: a concrete two-player all-Fold round — nobody is in the
caller set and both scores drop by exactly 1. -/
theorem all_fold_round_witness :
    calledCards ["2", "K"] [.Fold, .Fold] = [] ∧
    roundMaxValue (calledCards ["2", "K"] [.Fold, .Fold]) = .ok (.int 0) ∧
    resolveRound ["2", "K"] [.Fold, .Fold] [0, 0]
      = .ok (([0, 0] : List Int).map (fun s => s + LOSE_FOLD_SCORE)) :=
  all_fold_round ["2", "K"] [.Fold, .Fold] [0, 0] rfl rfl (by decide)

lemma playerDelta_cases (c : CardValue) (d : Decision) (mv : PyVal) :
    playerDelta c d mv = WINNING_SCORE ∨ playerDelta c d mv = LOSE_FOLD_SCORE ∨
    playerDelta c d mv = LOSE_CALL_SCORE := by
  cases d with
  | Fold => exact Or.inr (Or.inl rfl)
  | Call =>
    unfold playerDelta
    by_cases hp : pyEqStr c mv = true
    · exact Or.inl (if_pos hp)
    · exact Or.inr (Or.inr (if_neg hp))

lemma playerDelta_call_max (m : CardValue) :
    playerDelta m .Call (.str m) = WINNING_SCORE := by
  simp [playerDelta, pyEqStr]

/-- C9: in every round, each player's score changes by exactly one of
`WINNING_SCORE = 5`, `LOSE_FOLD_SCORE = -1`, `LOSE_CALL_SCORE = -2` (all
non-zero, no other delta), and when anyone called, every caller whose card
equals the caller-group maximum receives the full `WINNING_SCORE` — ties
win by value equality. -/
theorem round_score_delta_set (cards : List CardValue) (decisions : List Decision)
    (scores : List Int) (h1 : decisions.length = cards.length)
    (h2 : scores.length = cards.length) :
    ∃ mv newScores,
      roundMaxValue (calledCards cards decisions) = .ok mv ∧
      resolveRound cards decisions scores = .ok newScores ∧
      newScores.length = cards.length ∧
      (calledCards cards decisions ≠ [] →
        ∃ m, pyMax (calledCards cards decisions) = .ok m ∧ mv = .str m) ∧
      (∀ i (hi : i < cards.length) (hd : i < decisions.length) (hs : i < scores.length)
          (hn : i < newScores.length),
        newScores.get ⟨i, hn⟩
          = scores.get ⟨i, hs⟩
            + playerDelta (cards.get ⟨i, hi⟩) (decisions.get ⟨i, hd⟩) mv ∧
        (playerDelta (cards.get ⟨i, hi⟩) (decisions.get ⟨i, hd⟩) mv = WINNING_SCORE ∨
          playerDelta (cards.get ⟨i, hi⟩) (decisions.get ⟨i, hd⟩) mv = LOSE_FOLD_SCORE ∨
          playerDelta (cards.get ⟨i, hi⟩) (decisions.get ⟨i, hd⟩) mv = LOSE_CALL_SCORE) ∧
        (∀ m, mv = .str m → decisions.get ⟨i, hd⟩ = .Call → cards.get ⟨i, hi⟩ = m →
          newScores.get ⟨i, hn⟩ = scores.get ⟨i, hs⟩ + WINNING_SCORE)) := by
  obtain ⟨mv, hmv, hstr⟩ :
      ∃ mv, roundMaxValue (calledCards cards decisions) = .ok mv ∧
        (calledCards cards decisions ≠ [] →
          ∃ m, pyMax (calledCards cards decisions) = .ok m ∧ mv = .str m) := by
    cases hcc : calledCards cards decisions with
    | nil => exact ⟨.int 0, rfl, fun h => absurd rfl h⟩
    | cons c cs => exact ⟨.str (cs.foldl pyStrMax2 c), rfl, fun _ => ⟨_, rfl, rfl⟩⟩
  refine ⟨mv,
    List.zipWith (fun cd s => s + playerDelta cd.1 cd.2 mv) (cards.zip decisions) scores,
    hmv, ?_, ?_, hstr, ?_⟩
  · unfold resolveRound
    rw [hmv]
    rfl
  · simp [List.length_zipWith, List.length_zip, h1, h2]
  · intro i hi hd hs hn
    have hget :
        (List.zipWith (fun cd s => s + playerDelta cd.1 cd.2 mv)
          (cards.zip decisions) scores).get ⟨i, hn⟩
          = scores.get ⟨i, hs⟩
            + playerDelta (cards.get ⟨i, hi⟩) (decisions.get ⟨i, hd⟩) mv := by
      simp [List.get_eq_getElem, List.getElem_zipWith, List.getElem_zip]
    refine ⟨hget, playerDelta_cases _ _ _, ?_⟩
    intro m hm hcall hcard
    rw [hget, hm, hcall, hcard, playerDelta_call_max m]

/-- C9 witness: two players tied at 'K', both calling — both are in the
caller group, the caller max is 'K', and the delta clauses hold at every
index. -/
theorem round_score_delta_set_witness :
    ∃ mv newScores,
      roundMaxValue (calledCards ["K", "K"] [.Call, .Call]) = .ok mv ∧
      resolveRound ["K", "K"] [.Call, .Call] [0, 0] = .ok newScores ∧
      newScores.length = (["K", "K"] : List CardValue).length ∧
      (calledCards ["K", "K"] [.Call, .Call] ≠ [] →
        ∃ m, pyMax (calledCards ["K", "K"] [.Call, .Call]) = .ok m ∧ mv = .str m) ∧
      (∀ i (hi : i < (["K", "K"] : List CardValue).length)
          (hd : i < ([.Call, .Call] : List Decision).length)
          (hs : i < ([0, 0] : List Int).length) (hn : i < newScores.length),
        newScores.get ⟨i, hn⟩
          = ([0, 0] : List Int).get ⟨i, hs⟩
            + playerDelta ((["K", "K"] : List CardValue).get ⟨i, hi⟩)
                (([.Call, .Call] : List Decision).get ⟨i, hd⟩) mv ∧
        (playerDelta ((["K", "K"] : List CardValue).get ⟨i, hi⟩)
            (([.Call, .Call] : List Decision).get ⟨i, hd⟩) mv = WINNING_SCORE ∨
          playerDelta ((["K", "K"] : List CardValue).get ⟨i, hi⟩)
            (([.Call, .Call] : List Decision).get ⟨i, hd⟩) mv = LOSE_FOLD_SCORE ∨
          playerDelta ((["K", "K"] : List CardValue).get ⟨i, hi⟩)
            (([.Call, .Call] : List Decision).get ⟨i, hd⟩) mv = LOSE_CALL_SCORE) ∧
        (∀ m, mv = .str m →
          ([.Call, .Call] : List Decision).get ⟨i, hd⟩ = .Call →
          (["K", "K"] : List CardValue).get ⟨i, hi⟩ = m →
          newScores.get ⟨i, hn⟩ = ([0, 0] : List Int).get ⟨i, hs⟩ + WINNING_SCORE)) :=
  round_score_delta_set ["K", "K"] [.Call, .Call] [0, 0] rfl rfl

lemma draw_concat (rest : List CardValue) (c : CardValue) :
    Deck.draw (rest ++ [c]) = .ok (c, rest) := by
  simp [Deck.draw, List.getLast?_concat]

lemma drawN_concat (k : Nat) (l2 : List CardValue) (a : CardValue) :
    drawN (k + 1) (l2 ++ [a]) = drawN k l2 := by
  simp only [drawN, draw_concat]

lemma drawN_ok : ∀ (n : Nat) (l : List CardValue), n ≤ l.length →
    ∃ rest, drawN n l = .ok rest ∧ rest.length = l.length - n := by
  intro n
  induction n with
  | zero => intro l _; exact ⟨l, rfl, by simp⟩
  | succ k ih =>
    intro l hl
    rcases List.eq_nil_or_concat l with rfl | ⟨l2, a, rfl⟩
    · simp at hl
    · rw [List.concat_eq_append]
      rw [List.concat_eq_append] at hl
      have hk : k ≤ l2.length := by simp at hl; omega
      obtain ⟨rest, hr, hrl⟩ := ih l2 hk
      refine ⟨rest, by rw [drawN_concat]; exact hr, ?_⟩
      rw [hrl]
      simp

lemma drawN_err : ∀ (n : Nat) (l : List CardValue), l.length < n →
    drawN n l = .error .IndexError := by
  intro n
  induction n with
  | zero => intro l h; exact absurd h (Nat.not_lt_zero _)
  | succ k ih =>
    intro l hl
    rcases List.eq_nil_or_concat l with rfl | ⟨l2, a, rfl⟩
    · rfl
    · rw [List.concat_eq_append] at hl ⊢
      rw [drawN_concat]
      apply ih
      simp at hl
      omega

lemma sessionDraws_ok (sh : Nat → List CardValue → List CardValue)
    (hsh : ∀ i l, (sh i l).length = l.length) (np : Nat) :
    ∀ (r : Nat) (deck : List CardValue), np * r ≤ deck.length →
    ∃ rest, sessionDraws sh np r deck = .ok rest ∧
      rest.length = deck.length - np * r := by
  intro r
  induction r with
  | zero => intro deck _; exact ⟨deck, rfl, by simp⟩
  | succ k ih =>
    intro deck hle
    have hm : np * (k + 1) = np * k + np := Nat.mul_succ np k
    have h2 : np * k + np ≤ deck.length := by rw [← hm]; exact hle
    have key : ∀ (m A b : Nat), A + b ≤ m →
        b ≤ m ∧ A ≤ m - b ∧ m - b - A = m - (A + b) := by
      intro m A b h
      omega
    obtain ⟨hb, hA, hsub⟩ := key deck.length (np * k) np h2
    obtain ⟨rest1, hr1, hl1⟩ := drawN_ok np (sh k deck) (by rw [hsh]; exact hb)
    have h3 : np * k ≤ rest1.length := by rw [hl1, hsh]; exact hA
    obtain ⟨rest, hr, hl⟩ := ih rest1 h3
    refine ⟨rest, ?_, ?_⟩
    · simp only [sessionDraws]
      rw [hr1]
      exact hr
    · rw [hl, hl1, hsh, hsub, hm]

lemma sessionDraws_err (sh : Nat → List CardValue → List CardValue)
    (hsh : ∀ i l, (sh i l).length = l.length) (np : Nat) :
    ∀ (r : Nat) (deck : List CardValue), deck.length < np * r →
    sessionDraws sh np r deck = .error .IndexError := by
  intro r
  induction r with
  | zero =>
    intro deck h
    rw [Nat.mul_zero] at h
    exact absurd h (Nat.not_lt_zero _)
  | succ k ih =>
    intro deck hlt
    have hm : np * (k + 1) = np * k + np := Nat.mul_succ np k
    by_cases hnp : (sh k deck).length < np
    · simp only [sessionDraws]
      rw [drawN_err np _ hnp]
    · obtain ⟨rest1, hr1, hl1⟩ := drawN_ok np (sh k deck) (le_of_not_lt hnp)
      simp only [sessionDraws]
      rw [hr1]
      apply ih
      rw [hl1, hsh]
      have hnp2 : np ≤ deck.length := by rw [hsh] at hnp; exact le_of_not_lt hnp
      have hlt2 : deck.length < np * k + np := by rw [← hm]; exact hlt
      have key : ∀ (m A b : Nat), b ≤ m → m < A + b → m - b < A := by
        intro m A b h1 h4
        omega
      exact key deck.length (np * k) np hnp2 hlt2

lemma deckInit_length : deckInit.length = 13000 := by
  rw [deckInit, List.length_flatten, List.map_replicate, List.sum_replicate]
  norm_num [ENOUGH_CARD_SET, card_order]

/-- C4 counterexample: the deck is provisioned once with
`13 × ENOUGH_CARD_SET = 13000` cards and never refilled, so a session of 2
players and 6501 rounds (13002 draws) DOES attempt to draw from an
exhausted deck — the claim's "every number of rounds" fails. The identity
function stands in for `shuffle`, which only permutes and cannot change the
card count. -/
theorem session_exhausts_deck :
    sessionDraws (fun _ deck => deck) 2 6501 deckInit = .error .IndexError := by
  apply sessionDraws_err (fun _ deck => deck) (fun _ _ => rfl) 2 6501 deckInit
  rw [deckInit_length]
  norm_num

/-- C4 amended: for every number of players ≥ 2 and every number of rounds
with `num_players × num_rounds ≤ 13000` (the deck as provisioned at
construction), a full session never attempts to draw from an exhausted
deck, for any length-preserving shuffle, even though the deck is never
re-provisioned between rounds. -/
theorem session_within_deck_capacity (sh : Nat → List CardValue → List CardValue)
    (np r : Nat) (hsh : ∀ i l, (sh i l).length = l.length) (_hnp : 2 ≤ np)
    (hcap : np * r ≤ 13 * 1000) :
    (sessionDraws sh np r deckInit).isOk = true := by
  obtain ⟨rest, hr, _⟩ := sessionDraws_ok sh hsh np r deckInit
    (by rw [deckInit_length]; exact le_trans hcap (by norm_num))
  rw [hr]
  rfl

/-- C4 witness: the identity shuffle is length-preserving and a 2-player,
3-round session stays within the 13000-card capacity and succeeds. -/
theorem session_within_deck_capacity_witness :
    (∀ (i : Nat) (l : List CardValue), ((fun _ deck => deck) i l).length = l.length) ∧
    2 ≤ 2 ∧ 2 * 3 ≤ 13 * 1000 ∧
    (sessionDraws (fun _ deck => deck) 2 3 deckInit).isOk = true :=
  ⟨fun _ _ => rfl, le_refl 2, by norm_num,
    session_within_deck_capacity (fun _ deck => deck) 2 3 (fun _ _ => rfl)
      (le_refl 2) (by norm_num)⟩
end IndianPoker
